import Mathlib

/-!
Verification of the `fixbv` scaled-integer (fixed-point) value type of
`myhdl/_fixbv.py`.

A `fixbv` stores an arbitrary-precision integer `si` (`_val` in the source),
a power-of-two exponent `shift` (`_shift`) and optional stored-integer bounds
`minsi`/`maxsi` (`_min`/`_max`).  The real-world value represented is
`si * 2 ** shift`.  Python's unbounded `int` is modelled by `ℤ`; a Python
function that can raise is modelled as returning `Except PyError _`; a method
that mutates `self` is modelled as returning the new state.
-/

/-- The Python exception kinds raised by the code under study. -/
inductive PyError where
  | valueError : String → PyError
  | typeError : String → PyError
  | notImplementedError : String → PyError
  | attributeError : String → PyError
  | assertionError : String → PyError
  | zeroDivisionError : PyError
deriving DecidableEq, Repr

/-- The `fixbv` state: stored integer `_val`, exponent `_shift`, and the
optional stored-integer bounds `_min` / `_max` (read through the `si`,
`shift`, `minsi`, `maxsi` properties in the source). -/
structure fixbv where
  si : ℤ
  shift : ℤ
  minsi : Option ℤ
  maxsi : Option ℤ
deriving DecidableEq, Repr

/-- `alignvalues(a, b)` from `_fixbv.py` (lines 79-98): given two
(stored-integer, shift) pairs, re-express both at the smaller shift.
If `a`'s shift is the larger one, `a`'s value is multiplied by
`2 ** (a_shift - b_shift)`; otherwise the function recurses with the
arguments swapped. -/
def alignvalues (a b : ℤ × ℤ) : (ℤ × ℤ) × (ℤ × ℤ) :=
  if a.2 ≥ b.2 then
    ((a.1 * 2 ^ (a.2 - b.2).toNat, b.2), (b.1, b.2))
  else
    let p := alignvalues b a
    (p.2, p.1)
termination_by (b.2 - a.2).toNat
decreasing_by omega

/-- The real-world value `si * 2 ** shift` of a stored pair, as a rational. -/
def realOf (v sh : ℤ) : ℚ := (v : ℚ) * (2 : ℚ) ^ sh

/-- The real-world value represented by a `fixbv`. -/
def fixbv.real (x : fixbv) : ℚ := realOf x.si x.shift

/-- `fixbv._handleBounds` (lines 287-292): when both bounds are set and
`minsi > si` or `si >= maxsi`, raise a `ValueError`; otherwise the state is
accepted unchanged. -/
def fixbv.handleBounds (x : fixbv) : Except PyError fixbv :=
  match x.maxsi, x.minsi with
  | some mx, some mn =>
      if mn > x.si ∨ x.si ≥ mx then
        .error (.valueError "fixbv: Value out of range")
      else .ok x
  | _, _ => .ok x

/-- `fixbv.__init__` (lines 127-156) restricted to integer `val`/`shift` and
optional integer bounds (the float path needs `asfloat=True` and is not used
by the claims): asserts that the bounds are both present or both absent,
stores the fields (`_cast` of an `int` is the identity, `_cast(None)` is
`None`), asserts `min < max` when bounds are given, then runs
`_handleBounds`. -/
def fixbv.init (val sh : ℤ) (mn mx : Option ℤ) : Except PyError fixbv :=
  match mn, mx with
  | none, none => (fixbv.mk val sh none none).handleBounds
  | some a, some b =>
      if a < b then (fixbv.mk val sh (some a) (some b)).handleBounds
      else .error (.assertionError "Exptected min < max")
  | _, _ => .error (.assertionError "Expected either min AND max equal to None or min and max not equal to None")

/-- `fixbv.align` (lines 273-285) on two `fixbv` operands: run `alignvalues`
on the two (si, shift) pairs and wrap the results as bound-free `fixbv`
instances (`fixbv(c[0], c[1])` with default `min=None, max=None`). -/
def fixbv.align (x y : fixbv) : fixbv × fixbv :=
  let p := alignvalues (x.si, x.shift) (y.si, y.shift)
  (⟨p.1.1, p.1.2, none, none⟩, ⟨p.2.1, p.2.2, none, none⟩)

/-- Whether a `fixbv` carries no bounds. -/
def boundsCleared (x : fixbv) : Bool := x.minsi == none && x.maxsi == none

/-- The stored integer satisfies the half-open bounds interval whenever both
bounds are present (`minsi ≤ si < maxsi`); trivially true otherwise. -/
def inBounds (x : fixbv) : Bool :=
  match x.maxsi, x.minsi with
  | some mx, some mn => decide (mn ≤ x.si ∧ x.si < mx)
  | _, _ => true

/-- Lifts a (boolean) predicate over the `.ok` branch of an `Except`
result: an error trivially satisfies it. -/
def okSat (P : fixbv → Bool) : Except PyError fixbv → Bool
  | .ok r => P r
  | .error _ => true

/-- Bit `i` of the infinite two's-complement representation of `si`
(Python's `(si >> i) & 0x1 == 1`): arithmetically, `(si / 2**i) mod 2`,
with flooring division and non-negative remainder, exactly Python's `>>`
and `%` on ints. -/
def intTestBit (si : ℤ) (i : ℕ) : Bool := Int.fdiv si (2 ^ i) % 2 == 1

/-- Python's `si | (1 << i)` on arbitrary ints: sets two's-complement bit
`i`, i.e. adds `2**i` when the bit is clear and is the identity otherwise. -/
def intSetBit (si : ℤ) (i : ℕ) : ℤ :=
  if intTestBit si i then si else si + 2 ^ i

/-- Python's `si & ~(1 << i)` on arbitrary ints: clears two's-complement bit
`i`, i.e. subtracts `2**i` when the bit is set and is the identity
otherwise. -/
def intClearBit (si : ℤ) (i : ℕ) : ℤ :=
  if intTestBit si i then si - 2 ^ i else si

/-- Python's `si &= ~(((1 << d) - 1) << j); si |= (v << j)` on arbitrary
ints, assuming `-2**d <= v < 2**d` (checked by the caller): replaces the
two's-complement bit field at positions `j..j+d-1` by the `d`-bit pattern of
`v`.  For `v >= 0` the or-operand `v << j` is disjoint from the cleared
value, so the or is an addition onto the cleared field.  For `v < 0` the
or-operand has every bit at position `>= j + d` set, so the result keeps only
the low `j` bits of `si`, places the `d`-bit pattern `v mod 2**d` at `j`,
and has all higher bits set (value `- 2**(j+d)` plus the low part). -/
def intSetField (si : ℤ) (j d : ℕ) (v : ℤ) : ℤ :=
  if 0 ≤ v then si - 2 ^ j * (Int.fdiv si (2 ^ j) % 2 ^ d) + v * 2 ^ j
  else si % 2 ^ j + v % 2 ^ d * 2 ^ j - 2 ^ (j + d)

/-- `fixbv.is_integer` (lines 325-329): true when `shift >= 0`, otherwise
true iff the stored integer is divisible by `2 ** (-shift)`. -/
def fixbv.isInteger (x : fixbv) : Bool :=
  if x.shift ≥ 0 then true else x.si % 2 ^ (-x.shift).toNat == 0

/-- `fixbv.__add__` (lines 415-421) on two `fixbv` operands: align, add the
aligned stored integers, and build a bound-free result at the common shift. -/
def fixbv.add (x y : fixbv) : fixbv :=
  let p := x.align y
  ⟨p.1.si + p.2.si, p.1.shift, none, none⟩

/-- `fixbv.__sub__` (lines 425-431) on two `fixbv` operands. -/
def fixbv.sub (x y : fixbv) : fixbv :=
  let p := x.align y
  ⟨p.1.si - p.2.si, p.1.shift, none, none⟩

/-- `fixbv.__mul__` (lines 438-443) on two `fixbv` operands: no alignment,
product of stored integers, sum of shifts, bounds cleared. -/
def fixbv.mul (x y : fixbv) : fixbv :=
  ⟨x.si * y.si, x.shift + y.shift, none, none⟩

/-- `fixbv.__floordiv__` (lines 464-470) on two `fixbv` operands: align, then
`c.si // d.si` (Python floor division, raising `ZeroDivisionError` on a zero
divisor) at result shift `0`, bounds cleared. -/
def fixbv.floordiv (x y : fixbv) : Except PyError fixbv :=
  let p := x.align y
  if p.2.si = 0 then .error .zeroDivisionError
  else .ok ⟨Int.fdiv p.1.si p.2.si, 0, none, none⟩

/-- `fixbv.__mod__` (lines 478-484) on two `fixbv` operands: align, then
`c.si % d.si` (Python remainder, which matches `Int.fmod`, raising
`ZeroDivisionError` on a zero divisor) at the common shift, bounds cleared. -/
def fixbv.mod (x y : fixbv) : Except PyError fixbv :=
  let p := x.align y
  if p.2.si = 0 then .error .zeroDivisionError
  else .ok ⟨Int.fmod p.1.si p.2.si, p.1.shift, none, none⟩

/-- `fixbv.__pow__` (lines 490-501) with a Python `int` operand `n`
(`powerval = n`): for `n >= 0`, `self.si ** n` is an `int` and the result is
the bound-free `fixbv(self.si ** n, self.shift * n)`.  For `n < 0` Python's
`int ** int` raises `ZeroDivisionError` on a zero base and otherwise yields a
`float`, which the default (`asfloat=False`) `_cast` in the `fixbv`
constructor rejects with a `TypeError`. -/
def fixbv.pow (x : fixbv) (n : ℤ) : Except PyError fixbv :=
  if 0 ≤ n then .ok ⟨x.si ^ n.toNat, x.shift * n, none, none⟩
  else if x.si = 0 then .error .zeroDivisionError
  else .error (.typeError "fixbv does not accept floats by default")

/-- `fixbv.__truediv__` (lines 447-458): the implementation is commented out
in the source and the method unconditionally raises `NotImplementedError`. -/
def fixbv.truediv (_x _other : fixbv) : Except PyError fixbv :=
  .error (.notImplementedError "The truediv function is not implemented yet")

/-- `fixbv.__itruediv__` (lines 533-534): unconditionally raises
`TypeError`. -/
def fixbv.itruediv (_x _other : fixbv) : Except PyError fixbv :=
  .error (.typeError "fixbv: Augmented true division not supported")

/-- `fixbv.__lshift__` (lines 561-569) with a Python `int` operand `n`: the
source wraps `n` as `fixbv(n)` (stored integer `n`, shift `0`, no bounds),
which passes `is_integer()`, and `int()` of it is exactly `n`; the returned
value is the bound-free `fixbv(self.si, self.shift + n)` - a pure rescale. -/
def fixbv.lshift (x : fixbv) (n : ℤ) : fixbv :=
  ⟨x.si, x.shift + n, none, none⟩

/-- `fixbv.__rshift__` (lines 575-583) with a Python `int` operand `n`:
returns the bound-free `fixbv(self.si, self.shift - n)`. -/
def fixbv.rshift (x : fixbv) (n : ℤ) : fixbv :=
  ⟨x.si, x.shift - n, none, none⟩

/-- `fixbv.__ilshift__` (lines 589-601) with a Python `int` operand `n`:
executes `self.si = int(self.si << n)` (which raises `ValueError` for a
negative shift count and equals `si * 2 ** n` otherwise, the shift field
unchanged) and then `self._handleBounds()`. -/
def fixbv.ilshift (x : fixbv) (n : ℤ) : Except PyError fixbv :=
  if n < 0 then .error (.valueError "negative shift count")
  else ({ x with si := x.si * 2 ^ n.toNat }).handleBounds

/-- `fixbv.__irshift__` (lines 603-615) with a Python `int` operand `n`:
executes `self.si = int(self.si >> n)` (raising `ValueError` for a negative
shift count; Python's arithmetic right shift is flooring division by
`2 ** n`) and then `self._handleBounds()`. -/
def fixbv.irshift (x : fixbv) (n : ℤ) : Except PyError fixbv :=
  if n < 0 then .error (.valueError "negative shift count")
  else ({ x with si := Int.fdiv x.si (2 ^ n.toNat) }).handleBounds

/-- `fixbv.__iadd__` (lines 506-510): compute `self.__add__(other)`, run
`_handleBounds` on the result, and return that result as the new binding. -/
def fixbv.iadd (x y : fixbv) : Except PyError fixbv := (x.add y).handleBounds

/-- `fixbv.__isub__` (lines 512-516). -/
def fixbv.isub (x y : fixbv) : Except PyError fixbv := (x.sub y).handleBounds

/-- `fixbv.__imul__` (lines 518-522). -/
def fixbv.imul (x y : fixbv) : Except PyError fixbv := (x.mul y).handleBounds

/-- `fixbv.__ifloordiv__` (lines 524-528). -/
def fixbv.ifloordiv (x y : fixbv) : Except PyError fixbv :=
  (x.floordiv y).bind fixbv.handleBounds

/-- `fixbv.__imod__` (lines 536-540). -/
def fixbv.imod (x y : fixbv) : Except PyError fixbv :=
  (x.mod y).bind fixbv.handleBounds

/-- `fixbv.__eq__` (lines 626-634) on two `fixbv` operands: align both and
compare the aligned stored integers. -/
def fixbv.eq (x y : fixbv) : Bool :=
  let p := x.align y
  p.1.si == p.2.si

/-- `fixbv.__getitem__` (lines 347-367) with an integer key: translates the
key by the shift (`i = int(key - self.shift)`) and returns
`bool((self.si >> i) & 0x1)`; Python raises `ValueError` when the resolved
shift count `i` is negative. -/
def fixbv.getitemBit (x : fixbv) (key : ℤ) : Except PyError Bool :=
  let i := key - x.shift
  if i < 0 then .error (.valueError "negative shift count")
  else .ok (intTestBit x.si i.toNat)

/-- `fixbv.__getitem__` (lines 347-363) with a slice key: the source first
evaluates `key.start - self.shift` and `key.stop - self.shift`, so an omitted
(`None`) endpoint raises `TypeError` there (the `j is None` / `i is None`
defaults further down are unreachable).  With both endpoints given it checks
`j >= 0` (post-translation) and `i > j`, and returns
`intbv((self.si & (1 << i) - 1) >> j, _nrbits=i-j)`; the external `intbv`
container is modelled by the pair (value, declared bit width). -/
def fixbv.getitemSlice (x : fixbv) (start stop : Option ℤ) :
    Except PyError (ℤ × ℤ) :=
  match start, stop with
  | some st, some sp =>
      let i := st - x.shift
      let j := sp - x.shift
      if j < 0 then .error (.valueError "fixbv[i:j] requires j >= shift")
      else if i ≤ j then .error (.valueError "fixbv[i:j] requires i > j")
      else .ok (Int.fdiv (x.si % 2 ^ i.toNat) (2 ^ j.toNat), i - j)
  | _, _ => .error (.typeError "unsupported operand: NoneType - int")

/-- `fixbv.__setitem__` (lines 397-407) with an integer key: the raw key `i =
int(key)` is used as the stored-integer bit position (no shift translation).
`v = 1` executes `self.si |= (1 << i)`, `v = 0` executes
`self.si &= ~(1 << i)` (each raising `ValueError` for a negative shift
count), then `_handleBounds`; any other `v` raises `ValueError`. -/
def fixbv.setitemBit (x : fixbv) (key v : ℤ) : Except PyError fixbv :=
  if v = 1 then
    if key < 0 then .error (.valueError "negative shift count")
    else ({ x with si := intSetBit x.si key.toNat }).handleBounds
  else if v = 0 then
    if key < 0 then .error (.valueError "negative shift count")
    else ({ x with si := intClearBit x.si key.toNat }).handleBounds
  else .error (.valueError "fixbv[i] = v requires v in (0, 1)")

/-- `fixbv.__setitem__` (lines 369-396) with a slice key: the raw endpoints
`key.start` / `key.stop` are used as stored-integer bit positions (no shift
translation); `j` defaults to `0` and must be non-negative.  With `i`
omitted, `self.si = v * 2**j + (self.si % 2**j)`.  With `i` given it requires
`i > j` and `-2**(i-j) <= v < 2**(i-j)`, then executes `self.si &= ~mask;
self.si |= (v << j)` with `mask = (2**(i-j) - 1) << j`.  Both mutation paths
end with `_handleBounds`. -/
def fixbv.setitemSlice (x : fixbv) (start stop : Option ℤ) (v : ℤ) :
    Except PyError fixbv :=
  let j := stop.getD 0
  if j < 0 then .error (.valueError "fixbv[i:j] = v requires j >= 0")
  else
    match start with
    | none =>
        ({ x with si := v * 2 ^ j.toNat + x.si % 2 ^ j.toNat }).handleBounds
    | some i =>
        if i ≤ j then .error (.valueError "fixbv[i:j] = v requires i > j")
        else
          let lim : ℤ := 2 ^ (i - j).toNat
          if v ≥ lim ∨ v < -lim then
            .error (.valueError "fixbv[i:j] = v abs(v) too large")
          else
            ({ x with
                si := intSetField x.si j.toNat (i - j).toNat v }).handleBounds

/-- `fixbv.setsi` (lines 189-190), the setter of the public `si` property:
`self._val = int(val)` with no bounds check of any kind. -/
def fixbv.setsi (x : fixbv) (v : ℤ) : fixbv := { x with si := v }

/-- `fixbv.setminsi` (lines 203-204), the setter of the `minsi` property:
assigns `_min` with no pairing or bounds check. -/
def fixbv.setminsi (x : fixbv) (v : Option ℤ) : fixbv := { x with minsi := v }

/-- `fixbv.setmaxsi` (lines 209-210), the setter of the `maxsi` property. -/
def fixbv.setmaxsi (x : fixbv) (v : Option ℤ) : fixbv := { x with maxsi := v }

/-- `fixbv.signed` (lines 697-752).  The method's first expression evaluates
`self.min`; the class defines properties `minsi`/`maxsi` (over the fields
`_min`/`_max`) but no attribute or property named `min`, so this lookup
raises `AttributeError` on every instance, before any of the classification
logic described in the method's own docstring can run. -/
def fixbv.signed (_x : fixbv) : Except PyError ℤ :=
  .error (.attributeError "fixbv object has no attribute min")

/-! ### Helper lemmas -/

theorem handleBounds_of_inBounds (x : fixbv) (h : inBounds x = true) :
    x.handleBounds = .ok x := by
  obtain ⟨v, sh, mn, mx⟩ := x
  rcases mn with _ | mn <;> rcases mx with _ | mx
  · rfl
  · rfl
  · rfl
  · simp only [inBounds, decide_eq_true_eq] at h
    simp only [fixbv.handleBounds]
    rw [if_neg (by omega)]

theorem handleBounds_ok (x r : fixbv) (h : x.handleBounds = .ok r) :
    r = x ∧ inBounds x = true := by
  obtain ⟨v, sh, mn, mx⟩ := x
  rcases mn with _ | mn <;> rcases mx with _ | mx
  · simp only [fixbv.handleBounds, Except.ok.injEq] at h
    subst h
    exact ⟨rfl, rfl⟩
  · simp only [fixbv.handleBounds, Except.ok.injEq] at h
    subst h
    exact ⟨rfl, rfl⟩
  · simp only [fixbv.handleBounds, Except.ok.injEq] at h
    subst h
    exact ⟨rfl, rfl⟩
  · simp only [fixbv.handleBounds] at h
    by_cases hc : mn > v ∨ v ≥ mx
    · rw [if_pos hc] at h
      exact (Except.noConfusion h)
    · rw [if_neg hc] at h
      injection h with h
      subst h
      refine ⟨rfl, ?_⟩
      simp only [inBounds, decide_eq_true_eq]
      omega

theorem handleBounds_of_boundsCleared (x : fixbv) (h : boundsCleared x = true) :
    x.handleBounds = .ok x := by
  obtain ⟨v, sh, mn, mx⟩ := x
  simp only [boundsCleared, Bool.and_eq_true, beq_iff_eq] at h
  obtain ⟨h1, h2⟩ := h
  subst h1
  subst h2
  rfl

theorem okSat_inBounds_handleBounds (s : fixbv) :
    okSat inBounds s.handleBounds = true := by
  cases h : s.handleBounds with
  | error e => rfl
  | ok r =>
      obtain ⟨hr, hb⟩ := handleBounds_ok s r h
      simp only [okSat, hr, hb]

theorem okSat_inBounds_bind (e : Except PyError fixbv) :
    okSat inBounds (e.bind fixbv.handleBounds) = true := by
  cases e with
  | error e => rfl
  | ok a => exact okSat_inBounds_handleBounds a

theorem okSat_handleBounds_and_inBounds (s : fixbv) (P : fixbv → Bool)
    (h : P s = true) :
    okSat (fun r => P r && inBounds r) s.handleBounds = true := by
  cases hh : s.handleBounds with
  | error e => rfl
  | ok r =>
      obtain ⟨hr, hb⟩ := handleBounds_ok s r hh
      simp only [okSat, hr, h, hb, Bool.and_self]

theorem realOf_scale (v s t : ℤ) (h : t ≤ s) :
    realOf (v * 2 ^ (s - t).toNat) t = realOf v s := by
  unfold realOf
  push_cast
  rw [mul_assoc]
  congr 1
  rw [← zpow_natCast (2 : ℚ) (s - t).toNat,
    ← zpow_add₀ (by norm_num : (2 : ℚ) ≠ 0)]
  congr 1
  omega

theorem realOf_inj (v w m : ℤ) : realOf v m = realOf w m ↔ v = w := by
  unfold realOf
  constructor
  · intro h
    have h2 : (2 : ℚ) ^ m ≠ 0 := zpow_ne_zero _ (by norm_num)
    exact_mod_cast mul_right_cancel₀ h2 h
  · intro h
    rw [h]

theorem alignvalues_ge (a b : ℤ × ℤ) (h : b.2 ≤ a.2) :
    alignvalues a b = ((a.1 * 2 ^ (a.2 - b.2).toNat, b.2), b) := by
  rw [alignvalues, if_pos (by exact h)]

theorem alignvalues_lt (a b : ℤ × ℤ) (h : a.2 < b.2) :
    alignvalues a b = (a, (b.1 * 2 ^ (b.2 - a.2).toNat, a.2)) := by
  rw [alignvalues, if_neg (by omega), alignvalues_ge b a (le_of_lt h)]

theorem alignvalues_spec (a b : ℤ × ℤ) :
    (alignvalues a b).1.2 = min a.2 b.2 ∧
    (alignvalues a b).2.2 = min a.2 b.2 ∧
    realOf (alignvalues a b).1.1 (alignvalues a b).1.2 = realOf a.1 a.2 ∧
    realOf (alignvalues a b).2.1 (alignvalues a b).2.2 = realOf b.1 b.2 := by
  rcases le_or_lt b.2 a.2 with h | h
  · rw [alignvalues_ge a b h]
    exact ⟨by simp; omega, by simp; omega, realOf_scale a.1 a.2 b.2 h, rfl⟩
  · rw [alignvalues_lt a b h]
    exact ⟨by simp; omega, by simp; omega, rfl,
      realOf_scale b.1 b.2 a.2 (le_of_lt h)⟩

theorem align_spec (x y : fixbv) :
    (x.align y).1.shift = min x.shift y.shift ∧
    (x.align y).2.shift = min x.shift y.shift ∧
    (x.align y).1.real = x.real ∧
    (x.align y).2.real = y.real := by
  obtain ⟨h1, h2, h3, h4⟩ := alignvalues_spec (x.si, x.shift) (y.si, y.shift)
  exact ⟨h1, h2, h3, h4⟩

/-! ### Claim theorems -/

/-- C1: the spec (and the method's own docstring) says `signed()` follows the
classification table: reinterpret as two's complement exactly when a lower
bound is set, non-negative, and the bit width is positive, and return the
stored integer unchanged in every other combination.  The code instead
evaluates `self.min`, an attribute the class never defines (the properties
are `minsi`/`maxsi`), so `signed()` raises `AttributeError` on every
instance - including `fixbv(5, 0, min=0, max=8)`, for which the documented
classification would return `5` unchanged (nrbits = 4, msb clear). -/
theorem C1_signed_always_raises (x : fixbv) :
    x.signed = .error (.attributeError "fixbv object has no attribute min") :=
  rfl

/-- C2: `alignvalues` re-expresses both pairs at `min(exponentA, exponentB)`,
preserves each operand's real value `value * 2 ** exponent` exactly, rescales
the pair with the larger exponent by `2 ** (oldExponent - targetExponent)`,
and returns the other pair (and, when the exponents are equal, both pairs)
unchanged. -/
theorem C2_alignvalues_exact (a b : ℤ × ℤ) :
    ((alignvalues a b).1.2 = min a.2 b.2 ∧
      (alignvalues a b).2.2 = min a.2 b.2) ∧
    (realOf (alignvalues a b).1.1 (alignvalues a b).1.2 = realOf a.1 a.2 ∧
      realOf (alignvalues a b).2.1 (alignvalues a b).2.2 = realOf b.1 b.2) ∧
    (b.2 ≤ a.2 →
      alignvalues a b = ((a.1 * 2 ^ (a.2 - b.2).toNat, b.2), b)) ∧
    (a.2 ≤ b.2 →
      alignvalues a b = (a, (b.1 * 2 ^ (b.2 - a.2).toNat, a.2))) := by
  obtain ⟨h1, h2, h3, h4⟩ := alignvalues_spec a b
  refine ⟨⟨h1, h2⟩, ⟨h3, h4⟩, ?_, ?_⟩
  · intro h
    exact alignvalues_ge a b h
  · intro h
    rcases lt_or_eq_of_le h with h | h
    · exact alignvalues_lt a b h
    · rw [alignvalues_ge a b (le_of_eq h.symm)]
      have hz : (a.2 - b.2).toNat = 0 := by omega
      have hz2 : (b.2 - a.2).toNat = 0 := by omega
      rw [hz, hz2]
      simp only [pow_zero, mul_one]
      simp [Prod.ext_iff, h]

/-- Witness for C2 at the spec's own example: aligning `(100, 10)` with
`(10, 2)` yields `(25600, 2)` and `(10, 2)` unchanged. -/
theorem C2_alignvalues_exact_witness :
    ((alignvalues (100, 10) (10, 2)).1.2 = min 10 2 ∧
      (alignvalues (100, 10) (10, 2)).2.2 = min 10 2) ∧
    (realOf (alignvalues (100, 10) (10, 2)).1.1
        (alignvalues (100, 10) (10, 2)).1.2 = realOf 100 10 ∧
      realOf (alignvalues (100, 10) (10, 2)).2.1
        (alignvalues (100, 10) (10, 2)).2.2 = realOf 10 2) ∧
    alignvalues (100, 10) (10, 2) =
      ((100 * 2 ^ ((10 : ℤ) - 2).toNat, 2), (10, 2)) := by
  obtain ⟨h1, h2, h3, -⟩ := C2_alignvalues_exact (100, 10) (10, 2)
  exact ⟨h1, h2, h3 (by norm_num)⟩

/-- C5: every binary arithmetic operator (add, subtract, multiply,
floor-divide, modulo, power) returns a new `fixbv` with both bounds absent,
whatever bounds the operands carry (for the fallible operators, whenever they
return a result at all). -/
theorem C5_arith_results_unbounded (x y : fixbv) (n : ℤ) :
    boundsCleared (x.add y) = true ∧
    boundsCleared (x.sub y) = true ∧
    boundsCleared (x.mul y) = true ∧
    okSat boundsCleared (x.floordiv y) = true ∧
    okSat boundsCleared (x.mod y) = true ∧
    okSat boundsCleared (x.pow n) = true := by
  refine ⟨rfl, rfl, rfl, ?_, ?_, ?_⟩
  · simp only [fixbv.floordiv]
    split
    · rfl
    · rfl
  · simp only [fixbv.mod]
    split
    · rfl
    · rfl
  · simp only [fixbv.pow]
    split
    · rfl
    · split
      · rfl
      · rfl

/-- C7: ordinary true division and in-place true division are always
rejected with an error (`NotImplementedError` and `TypeError` respectively);
neither ever produces a result state, so neither can modify the left
operand. -/
theorem C7_truediv_always_rejected (x y : fixbv) :
    x.truediv y =
      .error (.notImplementedError "The truediv function is not implemented yet") ∧
    x.itruediv y =
      .error (.typeError "fixbv: Augmented true division not supported") :=
  ⟨rfl, rfl⟩

theorem eq_iff_real (x y : fixbv) : fixbv.eq x y = true ↔ x.real = y.real := by
  obtain ⟨h1, h2, h3, h4⟩ := align_spec x y
  show ((x.align y).1.si == (x.align y).2.si) = true ↔ x.real = y.real
  rw [beq_iff_eq, ← h3, ← h4]
  unfold fixbv.real
  rw [h1, h2]
  exact (realOf_inj _ _ _).symm

theorem handleBounds_map_si (w s1 s2 : ℤ) (mn mx : Option ℤ) :
    ((fixbv.mk w s1 mn mx).handleBounds).map fixbv.si =
      ((fixbv.mk w s2 mn mx).handleBounds).map fixbv.si := by
  rcases mn with _ | a <;> rcases mx with _ | b
  · rfl
  · rfl
  · rfl
  · simp only [fixbv.handleBounds]
    by_cases hc : a > w ∨ w ≥ b
    · rw [if_pos hc, if_pos hc]
    · rw [if_neg hc, if_neg hc]
      rfl

/-- C9: `fixbv.__eq__` aligns both operands and compares stored integers, so
two values are equal iff they represent the same real value
`storedInteger * 2 ** exponent`, regardless of differing exponents; in
particular `(4, -1)` equals `(1, 1)` (both are 2.0). -/
theorem C9_eq_iff_same_real (x y : fixbv) :
    (fixbv.eq x y = true ↔ x.real = y.real) ∧
    fixbv.eq (fixbv.mk 4 (-1) none none) (fixbv.mk 1 1 none none) = true := by
  refine ⟨eq_iff_real x y, (eq_iff_real _ _).mpr ?_⟩
  show realOf 4 (-1) = realOf 1 1
  unfold realOf
  norm_num

/-- C6: the non-mutating shifts are pure rescales - the stored integer is
unchanged and only the exponent moves by `n` (so the real value is multiplied
or divided by `2 ** n`) - while the in-place shifts bit-shift the stored
integer itself (multiply by / floor-divide by `2 ** n`), leave the exponent
unchanged, and run bounds validation on the result. -/
theorem C6_rescale_vs_inplace_shift (x : fixbv) (n : ℤ) (m : ℕ) :
    ((x.lshift n).si = x.si ∧ (x.lshift n).shift = x.shift + n ∧
      (x.lshift n).real = x.real * (2 : ℚ) ^ n ∧
      boundsCleared (x.lshift n) = true) ∧
    ((x.rshift n).si = x.si ∧ (x.rshift n).shift = x.shift - n ∧
      (x.rshift n).real = x.real / (2 : ℚ) ^ n ∧
      boundsCleared (x.rshift n) = true) ∧
    okSat (fun r => (r.shift == x.shift && r.si == x.si * 2 ^ m) && inBounds r)
      (x.ilshift (m : ℤ)) = true ∧
    okSat (fun r => (r.shift == x.shift && r.si == Int.fdiv x.si (2 ^ m)) && inBounds r)
      (x.irshift (m : ℤ)) = true := by
  refine ⟨⟨rfl, rfl, ?_, rfl⟩, ⟨rfl, rfl, ?_, rfl⟩, ?_, ?_⟩
  · unfold fixbv.real realOf fixbv.lshift
    rw [zpow_add₀ (by norm_num : (2 : ℚ) ≠ 0)]
    ring
  · unfold fixbv.real realOf fixbv.rshift
    rw [zpow_sub₀ (by norm_num : (2 : ℚ) ≠ 0)]
    ring
  · unfold fixbv.ilshift
    rw [if_neg (by omega), Int.toNat_natCast]
    exact okSat_handleBounds_and_inBounds _ _ (by simp)
  · unfold fixbv.irshift
    rw [if_neg (by omega), Int.toNat_natCast]
    exact okSat_handleBounds_and_inBounds _ _ (by simp)

/-- C4 counterexample: the claim says every write through the public
stored-integer setter either preserves `minsi <= si < maxsi` or raises a
range error.  But `setsi` (the `si` property setter) performs no check at
all: starting from the in-range `fixbv(2, 0, min=0, max=4)`, writing
`x.si = 100` returns normally (it is a single unchecked assignment in the
source) and leaves the instance in a state violating its own bounds. -/
theorem C4_counterexample :
    fixbv.init 2 0 (some 0) (some 4) = .ok (fixbv.mk 2 0 (some 0) (some 4)) ∧
    (fixbv.mk 2 0 (some 0) (some 4)).setsi 100 =
      fixbv.mk 100 0 (some 0) (some 4) ∧
    inBounds (fixbv.mk 100 0 (some 0) (some 4)) = false :=
  ⟨rfl, rfl, rfl⟩

/-- C4 amended: bounds validation does run after construction and after every
mutation that funnels through `_handleBounds` - bit and slice assignment, the
in-place shifts, and the in-place arithmetic operators - so any state those
return satisfies `minsi <= si < maxsi` whenever both bounds are set.  The
public `si`/`minsi`/`maxsi` property setters, however, assign their field
without any bounds check, so the invariant can be broken through them without
an error. -/
theorem C4_amended_validation (val sh k v w : ℤ) (mn mx st sp : Option ℤ)
    (x y : fixbv) :
    okSat inBounds (fixbv.init val sh mn mx) = true ∧
    okSat inBounds (x.setitemBit k v) = true ∧
    okSat inBounds (x.setitemSlice st sp w) = true ∧
    okSat inBounds (x.ilshift k) = true ∧
    okSat inBounds (x.irshift k) = true ∧
    okSat inBounds (x.iadd y) = true ∧
    okSat inBounds (x.isub y) = true ∧
    okSat inBounds (x.imul y) = true ∧
    okSat inBounds (x.ifloordiv y) = true ∧
    okSat inBounds (x.imod y) = true ∧
    (x.setsi v).si = v ∧ (x.setsi v).minsi = x.minsi ∧
      (x.setsi v).maxsi = x.maxsi := by
  refine ⟨?_, ?_, ?_, ?_, ?_, okSat_inBounds_handleBounds _,
    okSat_inBounds_handleBounds _, okSat_inBounds_handleBounds _,
    okSat_inBounds_bind _, okSat_inBounds_bind _, rfl, rfl, rfl⟩
  · rcases mn with _ | a <;> rcases mx with _ | b
    · show okSat inBounds (fixbv.mk val sh none none).handleBounds = true
      exact okSat_inBounds_handleBounds _
    · rfl
    · rfl
    · simp only [fixbv.init]
      split
      · exact okSat_inBounds_handleBounds _
      · rfl
  · simp only [fixbv.setitemBit]
    split_ifs <;> first | rfl | exact okSat_inBounds_handleBounds _
  · rcases st with _ | i <;> simp only [fixbv.setitemSlice] <;>
      split_ifs <;> first | rfl | exact okSat_inBounds_handleBounds _
  · simp only [fixbv.ilshift]
    split_ifs <;> first | rfl | exact okSat_inBounds_handleBounds _
  · simp only [fixbv.irshift]
    split_ifs <;> first | rfl | exact okSat_inBounds_handleBounds _

/-- C8 counterexample: the claim says every bit *write* at index `i` also
operates on stored-integer bit `i - exponent`.  Take `fixbv(1, 1)` (stored
integer 1, exponent 1): reading bit 1 returns stored bit `1 - 1 = 0`, which
is set - but writing `x[1] = 0` clears *raw* stored bit 1
(`__setitem__` uses `i = int(key)` with no shift translation), so the stored
integer stays `1`, while the claimed translated write (clear stored bit
`1 - 1 = 0`) would produce `0`. -/
theorem C8_counterexample :
    fixbv.getitemBit (fixbv.mk 1 1 none none) 1 = .ok true ∧
    fixbv.setitemBit (fixbv.mk 1 1 none none) 1 0 =
      .ok (fixbv.mk 1 1 none none) ∧
    intClearBit 1 ((1 : ℤ) - 1).toNat = 0 ∧ (1 : ℤ) ≠ 0 := by
  refine ⟨rfl, rfl, rfl, by decide⟩

/-- C8 amended: only the *read* paths translate a supplied index by the
exponent - a bit or slice get on exponent `e` behaves exactly like the same
get on an exponent-0 copy with indices shifted by `e`.  The *write* paths
(`__setitem__`, both bit and slice form) use the raw index as the
stored-integer bit position: the stored integer they produce is independent
of the exponent. -/
theorem C8_amended_index_translation (u e s' k v st sp w : ℤ)
    (mn mx : Option ℤ) :
    fixbv.getitemBit (fixbv.mk u e mn mx) k =
      fixbv.getitemBit (fixbv.mk u 0 mn mx) (k - e) ∧
    fixbv.getitemSlice (fixbv.mk u e mn mx) (some st) (some sp) =
      fixbv.getitemSlice (fixbv.mk u 0 mn mx) (some (st - e)) (some (sp - e)) ∧
    (fixbv.setitemBit (fixbv.mk u e mn mx) k v).map fixbv.si =
      (fixbv.setitemBit (fixbv.mk u s' mn mx) k v).map fixbv.si ∧
    (fixbv.setitemSlice (fixbv.mk u e mn mx) (some st) (some sp) w).map fixbv.si =
      (fixbv.setitemSlice (fixbv.mk u s' mn mx) (some st) (some sp) w).map fixbv.si := by
  refine ⟨?_, ?_, ?_, ?_⟩
  · simp [fixbv.getitemBit]
  · simp [fixbv.getitemSlice]
  · simp only [fixbv.setitemBit]
    split_ifs <;> first | rfl | exact handleBounds_map_si _ e s' mn mx
  · simp only [fixbv.setitemSlice]
    split_ifs <;> first | rfl | exact handleBounds_map_si _ e s' mn mx

/-- C10: the in-place add, subtract, multiply, floor-divide and modulo
operators return the corresponding non-mutating operator's result, whose
bounds are absent (the original instance's bounds are not carried over), so
the `_handleBounds` validation applied to that result is vacuous and can
never raise a range error - whenever the non-mutating operator produces a
result at all, the in-place operator returns it unchanged. -/
theorem C10_inplace_validation_vacuous (x y : fixbv) :
    x.iadd y = .ok (x.add y) ∧
    x.isub y = .ok (x.sub y) ∧
    x.imul y = .ok (x.mul y) ∧
    x.ifloordiv y = x.floordiv y ∧
    x.imod y = x.mod y ∧
    boundsCleared (x.add y) = true ∧
    boundsCleared (x.sub y) = true ∧
    boundsCleared (x.mul y) = true ∧
    okSat boundsCleared (x.floordiv y) = true ∧
    okSat boundsCleared (x.mod y) = true := by
  have hfd : okSat boundsCleared (x.floordiv y) = true := by
    simp only [fixbv.floordiv]
    split
    · rfl
    · rfl
  have hmd : okSat boundsCleared (x.mod y) = true := by
    simp only [fixbv.mod]
    split
    · rfl
    · rfl
  refine ⟨handleBounds_of_boundsCleared _ rfl, handleBounds_of_boundsCleared _ rfl,
    handleBounds_of_boundsCleared _ rfl, ?_, ?_, rfl, rfl, rfl, hfd, hmd⟩
  · show (x.floordiv y).bind fixbv.handleBounds = x.floordiv y
    cases h : x.floordiv y with
    | error e => rfl
    | ok r =>
        have hb : boundsCleared r = true := by
          revert h
          simp only [fixbv.floordiv]
          split
          · intro h
            exact (Except.noConfusion h)
          · intro h
            injection h with h
            rw [← h]
            rfl
        show fixbv.handleBounds r = .ok r
        exact handleBounds_of_boundsCleared r hb
  · show (x.mod y).bind fixbv.handleBounds = x.mod y
    cases h : x.mod y with
    | error e => rfl
    | ok r =>
        have hb : boundsCleared r = true := by
          revert h
          simp only [fixbv.mod]
          split
          · intro h
            exact (Except.noConfusion h)
          · intro h
            injection h with h
            rw [← h]
            rfl
        show fixbv.handleBounds r = .ok r
        exact handleBounds_of_boundsCleared r hb
